import Mathlib

/-!
Verification of the hyperlane chain-adapter core (mailbox batch delivery,
sequence-aware event indexing, merkle state reading) against its
natural-language specification.

The Rust sources embedded here:
- `chains/hyperlane-atleta/src/contracts/mailbox.rs` (EthereumMailbox,
  EthereumMailboxIndexer, BatchSimulation, SubmittableBatch)
- `main/chains/hyperlane-ethereum/src/contracts/merkle_tree_hook.rs`
  (EthereumMerkleTreeHook, EthereumMerkleTreeHookIndexer, Tree conversion)
- `chains/hyperlane-atleta/src/middleware_ext.rs` (finalized block read)

Async I/O against the ledger is embedded by passing the ledger's responses
explicitly (environment records) and, where a claim is about which network
reads happen, by returning an explicit trace of the issued reads alongside
the result.  Helpers that live in modules not shown in the sources
(`tx.rs`, `utils.rs`, `hyperlane_core`) are modelled from the spec; each
such definition says so in its doc comment.
-/

namespace Hyperlane

/-- Error taxonomy of the adapter, following the spec's section 7 and the
error paths visible in the sources (`ChainCommunicationError`,
`HyperlaneProtocolError::ProcessGasLimitRequired`, the finality-timeout and
gas-fill failures of `tx.rs`). -/
inductive ChainError where
  | transport
  | finalityUnknown
  | finalityTimeout
  | gasFill
  | processGasLimitRequired
  | contractRevert
deriving DecidableEq, Repr

/-! ## Batch simulation (`EthereumMailbox::simulate_batch`)

Candidate contract calls are kept abstract (`α`): the simulator never
inspects a call, it only bundles calls and pairs them with the per-call
success flags returned by the multicall probe. -/

/-- Model of the aggregate call built by `multicall::batch` from the full
candidate list.  `multicall::batch` is not among the shown sources; in
`simulate_batch` it receives `contract_calls.clone()` — the whole candidate
list, before any simulation result exists — so the aggregate is modelled as
the list of calls it bundles, in the order they were passed. -/
structure AggregateCall (α : Type) where
  calls : List α
deriving DecidableEq, Repr

/-- Model of `SubmittableBatch`: the aggregate call kept for real
submission (the provider handle and transaction overrides it also carries
do not affect which calls are in the batch). -/
structure SubmittableBatch (α : Type) where
  call : AggregateCall α
deriving DecidableEq, Repr

/-- Model of `BatchSimulation`: an optional submittable aggregate plus the
indexes of excluded calls. -/
structure BatchSimulation (α : Type) where
  call : Option (SubmittableBatch α)
  excludedCallIndexes : List Nat
deriving DecidableEq, Repr

/-- `BatchSimulation::failed(ops_count)`: no aggregate, every index
`0..ops_count` excluded (`(0..ops_count).collect()`). -/
def BatchSimulation.failed (α : Type) (opsCount : Nat) : BatchSimulation α :=
  ⟨none, List.range opsCount⟩

/-- Indexes at which the Bool list holds `false`, counting from `i`.  This
is the recursive rendering of Rust's
`.enumerate().filter_map(|(index, (_, result))| if !result.success then Some(index) else None)`
applied to the success flags. -/
def falseIndexesFrom : List Bool → Nat → List Nat
  | [], _ => []
  | b :: rest, i =>
    if b then falseIndexesFrom rest (i + 1) else i :: falseIndexesFrom rest (i + 1)

/-- The `failed_calls` list of `simulate_batch`:
`contract_calls.iter().zip(call_results.iter()).enumerate().filter_map(...)`.
The zip with the call list reproduces Rust's truncation to the shorter of
the two lists; only the success flag of each pair is consulted. -/
def failedCallIndexes {α : Type} (calls : List α) (callResults : List Bool) : List Nat :=
  falseIndexesFrom ((calls.zip callResults).map Prod.snd) 0

/-- `EthereumMailbox::simulate_batch`, after the multicall probe has
returned `callResults` (one success flag per simulated call): compute the
failed indexes; if at least two calls succeeded, return the plan bundling
the aggregate `batch` — the aggregate built from the full candidate list —
together with the failed indexes; otherwise return
`BatchSimulation::failed(call_count)`. -/
def simulateBatch {α : Type} (calls : List α) (callResults : List Bool) :
    BatchSimulation α :=
  let failedCalls := failedCallIndexes calls callResults
  let callCount := calls.length
  let successfulCalls := callCount - failedCalls.length
  if 2 ≤ successfulCalls then
    ⟨some ⟨⟨calls⟩⟩, failedCalls⟩
  else
    BatchSimulation.failed α callCount

/-! ## Transaction submission and finality confirmation

`SubmittableBatch::submit` and `Mailbox::process` both run:
gas fill → `report_tx` → `ensure_block_finalized` → return the outcome.
`fill_tx_gas_params`, `report_tx` and `ensure_block_finalized` live in
`tx.rs`, which is not among the shown sources; they are modelled from the
spec (section 4.5). -/

/-- A transaction receipt as produced once inclusion is reached: the
containing block number, gas used and status.  Modelled from the spec:
`report_tx` (in `tx.rs`, not shown) "sends the transaction, waits for
inclusion", so the receipt of a successful `report_tx` carries a concrete
inclusion block number. -/
structure Receipt where
  blockNumber : Nat
  gasUsed : Nat
  status : Bool
deriving DecidableEq, Repr

/-- The `TxOutcome` handed back to the runtime (transaction hash elided;
the claims only concern the containing block). -/
structure TxOutcome where
  blockNumber : Nat
  gasUsed : Nat
  status : Bool
deriving DecidableEq, Repr

/-- Conversion `receipt.into()` used at the end of `submit` and
`process`. -/
def Receipt.toOutcome (r : Receipt) : TxOutcome :=
  ⟨r.blockNumber, r.gasUsed, r.status⟩

/-- The ledger's responses during one submission.  `oracleAt t` is the
finalized block height the Finality Oracle reports at poll time `t` (the
oracle caches nothing, so consecutive polls may differ); `fillResult`
is the outcome of gas-parameter filling; `broadcastResult` the outcome of
`report_tx`. -/
structure SubmitEnv where
  oracleAt : Nat → Nat
  fillResult : Except ChainError Unit
  broadcastResult : Except ChainError Receipt

/-- Modelled from the spec: `ensure_block_finalized` (in `tx.rs`, not
shown) "polls the Finality Oracle until the inclusion block is reported
finalized", failing with `FinalityTimeout` when the bounded retry budget
(`fuel`) is exhausted.  Polling starts at time `t`; each failed poll
advances time by one.  On success it returns the poll time at which the
oracle reported the block finalized, which is the moment the surrounding
call returns. -/
def ensureBlockFinalized (oracleAt : Nat → Nat) :
    Nat → Nat → Nat → Except ChainError Nat
  | 0, _, _ => .error .finalityTimeout
  | fuel + 1, t, block =>
    if block ≤ oracleAt t then .ok t
    else ensureBlockFinalized oracleAt fuel (t + 1) block

/-- `SubmittableBatch::submit`: fill gas parameters on the aggregate call,
broadcast it (`report_tx`), then `ensure_block_finalized` on the outcome's
block number, and only then return the outcome.  The returned `Nat` is the
poll time at which the outcome is handed back. -/
def submitBatch (env : SubmitEnv) (fuel t : Nat) :
    Except ChainError (TxOutcome × Nat) :=
  match env.fillResult with
  | .error e => .error e
  | .ok _ =>
    match env.broadcastResult with
    | .error e => .error e
    | .ok receipt =>
      match ensureBlockFinalized env.oracleAt fuel t receipt.blockNumber with
      | .error e => .error e
      | .ok tFinal => .ok (receipt.toOutcome, tFinal)

/-- `EthereumMailbox::process`: build the process contract call for the
message and metadata (gas filling included, `process_contract_call`),
broadcast it (`report_tx`), then `ensure_block_finalized` on the receipt's
block number, and only then return the outcome.  The call-building step
only affects which transaction is broadcast, which the environment already
fixes, so it shares the gas-fill outcome slot. -/
def processMessage (env : SubmitEnv) (fuel t : Nat) :
    Except ChainError (TxOutcome × Nat) :=
  match env.fillResult with
  | .error e => .error e
  | .ok _ =>
    match env.broadcastResult with
    | .error e => .error e
    | .ok receipt =>
      match ensureBlockFinalized env.oracleAt fuel t receipt.blockNumber with
      | .error e => .error e
      | .ok tFinal => .ok (receipt.toOutcome, tFinal)

/-! ## Event indexing

Raw log decoding (`HyperlaneMessage::from(bytes)`, event field access) is
ABI work the spec places out of scope, so the transport is modelled as
yielding the decoded payload of each log together with its `LogMeta`. -/

/-- A decoded dispatched message; only the nonce (the intrinsic sequence
number) is consulted by the indexer, the rest of the message is opaque
payload. -/
structure HyperlaneMessage where
  nonce : Nat
  body : List Nat
deriving DecidableEq, Repr

/-- Provenance metadata of one log entry. -/
structure LogMeta where
  blockNumber : Nat
  logIndex : Nat
  transactionHash : Nat
deriving DecidableEq, Repr

/-- One merkle-tree insertion event (`MerkleTreeInsertion::new(log.index,
log.message_id)`). -/
structure MerkleTreeInsertion where
  leafIndex : Nat
  messageId : Nat
deriving DecidableEq, Repr

/-- The comparator of `events.sort_by(|a, b| a.0.inner().nonce.cmp(&b.0.inner().nonce))`:
order event pairs by the message nonce. -/
def nonceLe (a b : HyperlaneMessage × LogMeta) : Prop :=
  a.1.nonce ≤ b.1.nonce

instance : DecidableRel nonceLe := fun a b => Nat.decLe a.1.nonce b.1.nonce

instance : IsTotal (HyperlaneMessage × LogMeta) nonceLe :=
  ⟨fun a b => Nat.le_total a.1.nonce b.1.nonce⟩

instance : IsTrans (HyperlaneMessage × LogMeta) nonceLe :=
  ⟨fun _ _ _ hab hbc => Nat.le_trans hab hbc⟩

/-- The stable sort by nonce performed by `fetch_logs_in_range` on
dispatch events.  Rust's `sort_by` is a stable sort; every stable sort by
the same key computes the same list, so a stable insertion sort embeds
it. -/
def sortByNonce (events : List (HyperlaneMessage × LogMeta)) :
    List (HyperlaneMessage × LogMeta) :=
  List.insertionSort nonceLe events

/-- `Indexer<HyperlaneMessage>::fetch_logs_in_range`: issue the
`dispatch_filter().from_block(start).to_block(end)` query against the
provider — unconditionally, there is no range validation — then sort the
decoded events ascending by nonce.  The second component is the trace of
block ranges sent to the provider. -/
def fetchMessagesInRange
    (query : Nat → Nat → Except ChainError (List (HyperlaneMessage × LogMeta)))
    (startBlock endBlock : Nat) :
    Except ChainError (List (HyperlaneMessage × LogMeta)) × List (Nat × Nat) :=
  match query startBlock endBlock with
  | .error e => (.error e, [(startBlock, endBlock)])
  | .ok events => (.ok (sortByNonce events), [(startBlock, endBlock)])

/-- `Indexer<MerkleTreeInsertion>::fetch_logs_in_range`: issue the
`inserted_into_tree_filter().from_block(start).to_block(end)` query —
again with no range validation — and return the decoded events in log
order (no sort).  The second component is the trace of block ranges sent
to the provider. -/
def fetchInsertionsInRange
    (query : Nat → Nat → Except ChainError (List (MerkleTreeInsertion × LogMeta)))
    (startBlock endBlock : Nat) :
    Except ChainError (List (MerkleTreeInsertion × LogMeta)) × List (Nat × Nat) :=
  match query startBlock endBlock with
  | .error e => (.error e, [(startBlock, endBlock)])
  | .ok events => (.ok events, [(startBlock, endBlock)])

/-! ## Fetching logs by transaction hash

The transport is modelled as a function of the attempt number, so that a
transport that fails a few times and then succeeds is expressible. -/

/-- `Indexer<HyperlaneMessage>::fetch_logs_by_tx_hash` of the mailbox
indexer: one call to `fetch_raw_logs_and_log_meta` with `?` — the first
transport failure propagates to the caller, nothing retries. -/
def fetchMessagesByTxHash
    (transport : Nat → Except ChainError (List (HyperlaneMessage × LogMeta))) :
    Except ChainError (List (HyperlaneMessage × LogMeta)) :=
  match transport 0 with
  | .error e => .error e
  | .ok logs => .ok logs

/-- Modelled from the spec:
`hyperlane_core::rpc_clients::call_and_retry_indefinitely` is not among
the shown sources; per the spec it "retries indefinitely on transient
transport failure", never surfacing an error.  `fuel` bounds the unrolled
poll loop; `none` means the loop is still retrying (it is never an
error). -/
def callAndRetryIndefinitely {α : Type}
    (op : Nat → Except ChainError α) : Nat → Nat → Option α
  | 0, _ => none
  | fuel + 1, attempt =>
    match op attempt with
    | .ok a => some a
    | .error _ => callAndRetryIndefinitely op fuel (attempt + 1)

/-- `Indexer<MerkleTreeInsertion>::fetch_logs_by_tx_hash` of the
merkle-tree-hook indexer: `fetch_raw_logs_and_meta` wrapped in
`call_and_retry_indefinitely`, then decode (already folded into the
transport's payload). -/
def fetchInsertionsByTxHash
    (transport : Nat → Except ChainError (List (MerkleTreeInsertion × LogMeta)))
    (fuel : Nat) : Option (List (MerkleTreeInsertion × LogMeta)) :=
  callAndRetryIndefinitely transport fuel 0

/-! ## Latest sequence count and tip

`latest_sequence_count_and_tip` performs at most two ledger reads; the
trace of issued reads is returned alongside the result so that "the
counter is pinned to exactly the reported tip" and "no counter is read"
are stated about the reads actually issued. -/

/-- One ledger read issued by an indexer: a Finality Oracle read, a
mailbox `nonce()` read pinned at `height`, or a merkle-tree `count()` read
pinned at `height`. -/
inductive ReadEvent where
  | oracle
  | nonceAt (height : Nat)
  | countAt (height : Nat)
deriving DecidableEq, Repr

/-- The ledger's responses for one `latest_sequence_count_and_tip` call:
the Finality Oracle read outcome, and the outcome of the height-pinned
`nonce()` / `count()` contract reads as a function of the pinned
height. -/
structure IndexerEnv where
  finalizedResult : Except ChainError Nat
  nonceResult : Nat → Except ChainError Nat
  countResult : Nat → Except ChainError Nat

/-- `SequenceAwareIndexer<HyperlaneMessage>::latest_sequence_count_and_tip`:
read the tip from the Finality Oracle, then read
`self.contract.nonce().block(u64::from(tip))` — the nonce pinned at
exactly that tip — and return `(Some(sequence), tip)`. -/
def latestSequenceCountAndTipMessages (env : IndexerEnv) :
    Except ChainError (Option Nat × Nat) × List ReadEvent :=
  match env.finalizedResult with
  | .error e => (.error e, [.oracle])
  | .ok tip =>
    match env.nonceResult tip with
    | .error e => (.error e, [.oracle, .nonceAt tip])
    | .ok sequence => (.ok (some sequence, tip), [.oracle, .nonceAt tip])

/-- `SequenceAwareIndexer<H256>::latest_sequence_count_and_tip` (delivery
events): read the tip from the Finality Oracle and return `(None, tip)`
without any counter read. -/
def latestSequenceCountAndTipDeliveries (env : IndexerEnv) :
    Except ChainError (Option Nat × Nat) × List ReadEvent :=
  match env.finalizedResult with
  | .error e => (.error e, [.oracle])
  | .ok tip => (.ok (none, tip), [.oracle])

/-- `SequenceAwareIndexer<MerkleTreeInsertion>::latest_sequence_count_and_tip`:
read the tip from the Finality Oracle, then read
`self.contract.count().block(u64::from(tip))` — the leaf count pinned at
exactly that tip — and return `(Some(sequence), tip)`. -/
def latestSequenceCountAndTipInsertions (env : IndexerEnv) :
    Except ChainError (Option Nat × Nat) × List ReadEvent :=
  match env.finalizedResult with
  | .error e => (.error e, [.oracle])
  | .ok tip =>
    match env.countResult tip with
    | .error e => (.error e, [.oracle, .countAt tip])
    | .ok sequence => (.ok (some sequence, tip), [.oracle, .countAt tip])

/-! ## Cost estimation (`EthereumMailbox::process_estimate_costs`) -/

/-- The cost estimate returned to the runtime. -/
structure TxCostEstimate where
  gasLimit : Nat
  gasPrice : Nat
  l2GasLimit : Option Nat
deriving DecidableEq, Repr

/-- The ledger's responses for one cost estimation: `fillResult` is the
outcome of `process_contract_call` (building the call and filling its gas
parameters), carrying the gas limit set on the built call — `none` when no
gas limit ended up set; `auxResult` is the outcome of the auxiliary
`ArbitrumNodeInterface::estimate_retryable_ticket(...).estimate_gas()`
read; `gasPriceResult` the outcome of `get_gas_price()`. -/
structure EstimateEnv where
  fillResult : Except ChainError (Option Nat)
  auxResult : Except ChainError Nat
  gasPriceResult : Except ChainError Nat

/-- The construction-time rollup special case of `EthereumMailbox::new`:
the handle to the Arbitrum node interface (at address `0xC8`), present
exactly when the domain is flagged as Arbitrum Nitro.  Only presence
matters to the claims, so the handle itself is `Unit`. -/
structure EthereumMailboxModel where
  arbitrumNodeInterface : Option Unit
deriving DecidableEq, Repr

/-- `EthereumMailbox::new`:
`locator.domain.is_arbitrum_nitro().then(|| ... ArbitrumNodeInterface ...)`. -/
def EthereumMailboxModel.new (isArbitrumNitro : Bool) : EthereumMailboxModel :=
  ⟨if isArbitrumNitro then some () else none⟩

/-- `EthereumMailbox::process_estimate_costs`: build the process call and
read its gas limit (`ProcessGasLimitRequired` when absent); when the
Arbitrum node interface is present, issue the auxiliary
`estimate_retryable_ticket` read and use it as the secondary (L2) gas
limit, otherwise leave the secondary limit absent; read the gas price;
assemble the estimate.  The Bool component records whether the auxiliary
node-interface call was issued. -/
def processEstimateCosts (mb : EthereumMailboxModel) (env : EstimateEnv) :
    Except ChainError TxCostEstimate × Bool :=
  match env.fillResult with
  | .error e => (.error e, false)
  | .ok none => (.error .processGasLimitRequired, false)
  | .ok (some gasLimit) =>
    match mb.arbitrumNodeInterface with
    | some _ =>
      match env.auxResult with
      | .error e => (.error e, true)
      | .ok aux =>
        match env.gasPriceResult with
        | .error e => (.error e, true)
        | .ok price => (.ok ⟨gasLimit, price, some aux⟩, true)
    | none =>
      match env.gasPriceResult with
      | .error e => (.error e, false)
      | .ok price => (.ok ⟨gasLimit, price, none⟩, false)

/-! ## Merkle state reading (`Into<IncrementalMerkle> for Tree`) -/

/-- The ledger-reported tree state as decoded from the `tree()` call: the
branch slots (a fixed-size 32-slot array in the ABI, kept as a list so
that the `try_into` step below is meaningful) and the leaf count.  Branch
hashes are opaque 256-bit values, carried as `Nat`. -/
structure Tree where
  branch : List Nat
  count : Nat
deriving DecidableEq, Repr

/-- Modelled from the spec: `hyperlane_core`'s `IncrementalMerkle::new`
(not among the shown sources) stores the given 32-slot branch and leaf
count verbatim — per the spec, "Reconstructs the 32-slot branch verbatim;
no recomputation or validation of the tree's internal hash consistency is
performed by this layer". -/
structure IncrementalMerkle where
  branch : List Nat
  count : Nat
deriving DecidableEq, Repr

/-- `Into<IncrementalMerkle> for Tree`: map each branch slot through the
value-preserving `H256` conversion (`|v| v.into()`, the identity on the
carried value), `try_into()` a 32-slot array — `.unwrap()` panics (here
`none`) unless exactly 32 slots were reported — and store branch and
count unchanged via `IncrementalMerkle::new`. -/
def Tree.toIncrementalMerkle (t : Tree) : Option IncrementalMerkle :=
  let branch := t.branch.map (fun v => v)
  if branch.length = 32 then some ⟨branch, t.count⟩ else none

/-! ## Mailbox count (`Mailbox::count`) -/

/-- The ledger state consulted by `Mailbox::count`: the outcome of the
`nonce()` read as a function of the block tag it is pinned to.  The tag
distinguishes pinning to the finalized block from pinning elsewhere. -/
inductive BlockTag where
  | finalized
  | latest
  | height (h : Nat)
deriving DecidableEq, Repr

/-- The ledger's response to a `nonce()` read pinned at a given block
tag. -/
structure CountEnv where
  nonceAtTag : BlockTag → Except ChainError Nat

/-- `Mailbox::count(maybe_lag)`: the lag argument is bound as `_maybe_lag`
and never used; the nonce is read pinned at `BlockNumber::Finalized`
regardless. -/
def mailboxCount (_maybeLag : Option Nat) (env : CountEnv) : Except ChainError Nat :=
  env.nonceAtTag .finalized

/-! ## Concrete environments used to evaluate the definitions -/

/-- A submission environment: the oracle steadily reports block 10 as
finalized, gas filling succeeds, and the broadcast lands in block 5. -/
def submitEnvExample : SubmitEnv :=
  ⟨fun _ => 10, .ok (), .ok ⟨5, 100, true⟩⟩

/-- A provider whose log query succeeds with no logs. -/
def queryNoLogs {β : Type} : Nat → Nat → Except ChainError (List β) :=
  fun _ _ => .ok []

/-- A provider returning two dispatch events out of nonce order. -/
def queryTwoMessages :
    Nat → Nat → Except ChainError (List (HyperlaneMessage × LogMeta)) :=
  fun _ _ => .ok [(⟨2, []⟩, ⟨8, 1, 40⟩), (⟨1, []⟩, ⟨8, 0, 41⟩)]

/-- A transport that fails on its first attempt and succeeds afterwards. -/
def messageTransportFailsOnce :
    Nat → Except ChainError (List (HyperlaneMessage × LogMeta)) :=
  fun attempt => if attempt = 0 then .error .transport else .ok []

/-- A transport that fails on its first two attempts and then returns one
decoded insertion event (the spec's fails-twice-then-succeeds scenario). -/
def insertionTransportFailsTwice :
    Nat → Except ChainError (List (MerkleTreeInsertion × LogMeta)) :=
  fun attempt =>
    if attempt < 2 then .error .transport else .ok [(⟨7, 99⟩, ⟨12, 0, 5⟩)]

/-- An indexer environment: the oracle reports tip 42, the nonce read at
height `h` returns `h + 1`, the count read at height `h` returns
`2 * h`. -/
def indexerEnvExample : IndexerEnv :=
  ⟨.ok 42, fun h => .ok (h + 1), fun h => .ok (2 * h)⟩

/-- An estimation environment: the built call carries gas limit 1000000,
the auxiliary node-interface read returns 200000, the gas price read
returns 15. -/
def estimateEnvExample : EstimateEnv :=
  ⟨.ok (some 1000000), .ok 200000, .ok 15⟩

/-- A ledger-reported tree with 32 distinct branch slots and 7 leaves. -/
def treeExample : Tree :=
  ⟨List.range 32, 7⟩

/-! ### Facts about the failed-index computation -/

theorem mem_falseIndexesFrom (bs : List Bool) (i j : Nat) :
    j ∈ falseIndexesFrom bs i ↔ ∃ k, bs[k]? = some false ∧ j = i + k := by
  induction bs generalizing i with
  | nil => simp [falseIndexesFrom]
  | cons b rest ih =>
    cases b with
    | true =>
      simp only [falseIndexesFrom, if_pos, ih]
      constructor
      · rintro ⟨k, hk, rfl⟩
        exact ⟨k + 1, by simpa using hk, by omega⟩
      · rintro ⟨k, hk, rfl⟩
        cases k with
        | zero => simp at hk
        | succ k => exact ⟨k, by simpa using hk, by omega⟩
    | false =>
      simp only [falseIndexesFrom, if_neg, List.mem_cons, ih, Bool.false_eq_true,
        not_false_iff]
      constructor
      · rintro (rfl | ⟨k, hk, rfl⟩)
        · exact ⟨0, by simp, by omega⟩
        · exact ⟨k + 1, by simpa using hk, by omega⟩
      · rintro ⟨k, hk, rfl⟩
        cases k with
        | zero => left; omega
        | succ k => right; exact ⟨k, by simpa using hk, by omega⟩

theorem mem_falseIndexesFrom_zero (bs : List Bool) (j : Nat) :
    j ∈ falseIndexesFrom bs 0 ↔ bs[j]? = some false := by
  rw [mem_falseIndexesFrom]
  constructor
  · rintro ⟨k, hk, rfl⟩; simpa using hk
  · intro hj; exact ⟨j, hj, by omega⟩

theorem le_of_mem_falseIndexesFrom (bs : List Bool) (i j : Nat)
    (h : j ∈ falseIndexesFrom bs i) : i ≤ j := by
  obtain ⟨k, -, rfl⟩ := (mem_falseIndexesFrom bs i j).1 h
  omega

theorem sorted_falseIndexesFrom (bs : List Bool) (i : Nat) :
    (falseIndexesFrom bs i).Sorted (· < ·) := by
  induction bs generalizing i with
  | nil => simp [falseIndexesFrom]
  | cons b rest ih =>
    cases b with
    | true => simpa only [falseIndexesFrom, if_pos] using ih (i + 1)
    | false =>
      simp only [falseIndexesFrom, if_neg, Bool.false_eq_true, not_false_iff,
        List.sorted_cons]
      exact ⟨fun j hj => by have := le_of_mem_falseIndexesFrom rest (i + 1) j hj; omega,
        ih (i + 1)⟩

theorem length_falseIndexesFrom (bs : List Bool) (i : Nat) :
    (falseIndexesFrom bs i).length = bs.count false := by
  induction bs generalizing i with
  | nil => rfl
  | cons b rest ih =>
    cases b <;> simp [falseIndexesFrom, List.count_cons, ih]

theorem count_true_add_count_false (bs : List Bool) :
    bs.count true + bs.count false = bs.length := by
  induction bs with
  | nil => rfl
  | cons b rest ih => cases b <;> simp [List.count_cons] <;> omega

theorem failedCallIndexes_eq {α : Type} (calls : List α) (callResults : List Bool)
    (h : callResults.length = calls.length) :
    failedCallIndexes calls callResults = falseIndexesFrom callResults 0 := by
  rw [failedCallIndexes, List.map_snd_zip calls callResults (le_of_eq h)]

/-! ### Claim C2 — batch simulation plan shape -/

/-- C2: for a batch of `N` candidate calls of which exactly `k` simulate
successfully (one success flag per call): when `k ≥ 2` the plan's
aggregate is present and `excluded_call_indexes` is exactly the set of
failed indices, in ascending original-index order, of length
`N − k ≤ N − 2`; when `k < 2` the aggregate is absent and
`excluded_call_indexes = [0, …, N − 1]`. -/
theorem simulateBatch_plan_spec {α : Type} (calls : List α) (callResults : List Bool)
    (h : callResults.length = calls.length) :
    (2 ≤ callResults.count true →
      (simulateBatch calls callResults).call.isSome = true
        ∧ (∀ i, i ∈ (simulateBatch calls callResults).excludedCallIndexes ↔
            callResults[i]? = some false)
        ∧ (simulateBatch calls callResults).excludedCallIndexes.Sorted (· < ·)
        ∧ (simulateBatch calls callResults).excludedCallIndexes.length
            = calls.length - callResults.count true
        ∧ (simulateBatch calls callResults).excludedCallIndexes.length
            ≤ calls.length - 2)
    ∧ (callResults.count true < 2 →
      (simulateBatch calls callResults).call = none
        ∧ (simulateBatch calls callResults).excludedCallIndexes
            = List.range calls.length) := by
  have hfc := failedCallIndexes_eq calls callResults h
  have hlen : (failedCallIndexes calls callResults).length
      = callResults.count false := by
    rw [hfc, length_falseIndexesFrom]
  have hcnt := count_true_add_count_false callResults
  constructor
  · intro hk
    have hcond : 2 ≤ calls.length - (failedCallIndexes calls callResults).length := by
      omega
    have hplan : simulateBatch calls callResults
        = ⟨some ⟨⟨calls⟩⟩, failedCallIndexes calls callResults⟩ := by
      unfold simulateBatch
      simp only [if_pos hcond]
    rw [hplan]
    refine ⟨rfl, ?_, ?_, ?_, ?_⟩
    · intro i
      rw [show (BatchSimulation.mk (some ⟨⟨calls⟩⟩)
            (failedCallIndexes calls callResults)).excludedCallIndexes
          = failedCallIndexes calls callResults from rfl, hfc]
      exact mem_falseIndexesFrom_zero callResults i
    · rw [show (BatchSimulation.mk (some ⟨⟨calls⟩⟩)
            (failedCallIndexes calls callResults)).excludedCallIndexes
          = failedCallIndexes calls callResults from rfl, hfc]
      exact sorted_falseIndexesFrom callResults 0
    · show (failedCallIndexes calls callResults).length = _
      omega
    · show (failedCallIndexes calls callResults).length ≤ _
      omega
  · intro hk
    have hcond : ¬2 ≤ calls.length - (failedCallIndexes calls callResults).length := by
      omega
    have hplan : simulateBatch calls callResults
        = BatchSimulation.failed α calls.length := by
      unfold simulateBatch
      simp only [if_neg hcond]
    rw [hplan]
    exact ⟨rfl, rfl⟩

/-- Witness for `simulateBatch_plan_spec`, at the spec's scenario of three
operations with flags `[success, fail, success]` (so `k = 2`): the
aggregate is present and exactly index 1 is excluded. -/
theorem simulateBatch_plan_spec_witness :
    (simulateBatch [10, 20, 30] [true, false, true]).call.isSome = true
      ∧ (1 ∈ (simulateBatch [10, 20, 30] [true, false, true]).excludedCallIndexes
          ↔ ([true, false, true])[1]? = some false)
      ∧ (simulateBatch [10, 20, 30] [true, false, true]).excludedCallIndexes.length = 1 :=
  ⟨((simulateBatch_plan_spec [10, 20, 30] [true, false, true] rfl).1 (by decide)).1,
   ((simulateBatch_plan_spec [10, 20, 30] [true, false, true] rfl).1 (by decide)).2.1 1,
   by
    have hl :=
      ((simulateBatch_plan_spec [10, 20, 30] [true, false, true] rfl).1 (by decide)).2.2.2.1
    simpa using hl⟩

/-! ### Claim C3 — what the submittable aggregate contains -/

/-- C3 counterexample: candidate calls `[10, 20, 30]`, simulation flags
`[success, fail, success]`.  The successful calls are `[10, 30]`, yet the
plan's aggregate is the multicall aggregate over all three candidate
calls — call `20`, which failed simulation, is still bundled.  So the
aggregate is not formed from exactly the successful calls. -/
theorem simulateBatch_aggregate_counterexample :
    (simulateBatch [10, 20, 30] [true, false, true]).call = some ⟨⟨[10, 20, 30]⟩⟩
      ∧ (simulateBatch [10, 20, 30] [true, false, true]).call ≠ some ⟨⟨[10, 30]⟩⟩ := by
  decide

/-- C3 amended: when at least two candidate calls simulate successfully,
the plan's aggregate is the multicall aggregate over all `N` candidate
calls in their original order — calls that failed simulation are not
removed from it; they are only reported through `excluded_call_indexes`. -/
theorem simulateBatch_aggregate_amended {α : Type} (calls : List α)
    (callResults : List Bool) (h : callResults.length = calls.length)
    (hk : 2 ≤ callResults.count true) :
    (simulateBatch calls callResults).call = some ⟨⟨calls⟩⟩ := by
  have hfc := failedCallIndexes_eq calls callResults h
  have hlen : (failedCallIndexes calls callResults).length
      = callResults.count false := by
    rw [hfc, length_falseIndexesFrom]
  have hcnt := count_true_add_count_false callResults
  have hcond : 2 ≤ calls.length - (failedCallIndexes calls callResults).length := by
    omega
  unfold simulateBatch
  simp only [if_pos hcond]

/-- Witness for `simulateBatch_aggregate_amended` at calls `[10, 20, 30]`
with flags `[success, fail, success]`. -/
theorem simulateBatch_aggregate_amended_witness :
    (simulateBatch [10, 20, 30] [true, false, true]).call = some ⟨⟨[10, 20, 30]⟩⟩ :=
  simulateBatch_aggregate_amended [10, 20, 30] [true, false, true] rfl (by decide)

/-! ### Claim C1 — no TxOutcome before finality -/

theorem ensureBlockFinalized_ok (oracleAt : Nat → Nat) (fuel t block tFinal : Nat)
    (h : ensureBlockFinalized oracleAt fuel t block = .ok tFinal) :
    block ≤ oracleAt tFinal := by
  induction fuel generalizing t with
  | zero => simp [ensureBlockFinalized] at h
  | succ fuel ih =>
    rw [ensureBlockFinalized] at h
    by_cases hc : block ≤ oracleAt t
    · rw [if_pos hc] at h
      injection h with h2
      exact h2 ▸ hc
    · rw [if_neg hc] at h
      exact ih (t + 1) h

theorem submitBatch_ok_finalized (env : SubmitEnv) (fuel t : Nat)
    (outcome : TxOutcome) (tFinal : Nat)
    (h : submitBatch env fuel t = .ok (outcome, tFinal)) :
    outcome.blockNumber ≤ env.oracleAt tFinal := by
  unfold submitBatch at h
  cases hf : env.fillResult with
  | error e => simp [hf] at h
  | ok u =>
    simp only [hf] at h
    cases hb : env.broadcastResult with
    | error e => simp [hb] at h
    | ok receipt =>
      simp only [hb] at h
      cases he : ensureBlockFinalized env.oracleAt fuel t receipt.blockNumber with
      | error e => simp [he] at h
      | ok tF =>
        simp only [he, Except.ok.injEq, Prod.mk.injEq] at h
        obtain ⟨h3, h4⟩ := h
        subst h4
        rw [← h3]
        exact ensureBlockFinalized_ok env.oracleAt fuel t receipt.blockNumber tF he

/-- C1: whenever `SubmittableBatch::submit` or `Mailbox::process` returns
a `TxOutcome` (at poll time `tFinal`), the Finality Oracle has, at that
very moment, reported the outcome's containing block as finalized — a
`TxOutcome` is never returned for a block the oracle would, at that
moment, report as not finalized. -/
theorem txOutcome_only_after_finality (env : SubmitEnv) (fuel t : Nat)
    (outcome : TxOutcome) (tFinal : Nat) :
    (submitBatch env fuel t = .ok (outcome, tFinal) →
      outcome.blockNumber ≤ env.oracleAt tFinal)
    ∧ (processMessage env fuel t = .ok (outcome, tFinal) →
      outcome.blockNumber ≤ env.oracleAt tFinal) := by
  constructor
  · exact submitBatch_ok_finalized env fuel t outcome tFinal
  · intro h
    have hsub : submitBatch env fuel t = .ok (outcome, tFinal) := by
      unfold submitBatch
      unfold processMessage at h
      exact h
    exact submitBatch_ok_finalized env fuel t outcome tFinal hsub

/-- Witness for `txOutcome_only_after_finality`: oracle pinned at 10,
broadcast included in block 5; both paths return the outcome at poll time
0, where the oracle reports 10 ≥ 5. -/
theorem txOutcome_only_after_finality_witness :
    submitBatch submitEnvExample 1 0 = .ok (⟨5, 100, true⟩, 0)
      ∧ processMessage submitEnvExample 1 0 = .ok (⟨5, 100, true⟩, 0)
      ∧ (⟨5, 100, true⟩ : TxOutcome).blockNumber ≤ submitEnvExample.oracleAt 0
      ∧ (⟨5, 100, true⟩ : TxOutcome).blockNumber ≤ submitEnvExample.oracleAt 0 :=
  ⟨rfl, rfl,
   (txOutcome_only_after_finality submitEnvExample 1 0 ⟨5, 100, true⟩ 0).1 rfl,
   (txOutcome_only_after_finality submitEnvExample 1 0 ⟨5, 100, true⟩ 0).2 rfl⟩

/-! ### Claim C4 — no empty-range rejection -/

/-- C4 counterexample: for the range 5..3 (`start > end`) and a provider
whose query succeeds with no logs, both range fetchers return success —
not a caller error — and the trace shows the network query `(5, 3)` was
issued: the empty range is not rejected, and not before a network call. -/
theorem fetchInRange_empty_range_counterexample :
    5 > 3
      ∧ fetchMessagesInRange queryNoLogs 5 3 = (.ok [], [(5, 3)])
      ∧ fetchInsertionsInRange queryNoLogs 5 3 = (.ok [], [(5, 3)]) :=
  ⟨by decide, rfl, rfl⟩

/-- C4 amended: `fetch_logs_in_range` performs no empty-range validation.
For every range — `start > end` included — exactly one provider query
carrying precisely that range is issued; a provider error is propagated
unchanged and a provider success yields a successful result (sorted by
nonce for dispatch events, in log order for insertions). -/
theorem fetchInRange_forwards_range
    (qm : Nat → Nat → Except ChainError (List (HyperlaneMessage × LogMeta)))
    (qi : Nat → Nat → Except ChainError (List (MerkleTreeInsertion × LogMeta)))
    (s e : Nat) :
    (fetchMessagesInRange qm s e).2 = [(s, e)]
      ∧ (fetchInsertionsInRange qi s e).2 = [(s, e)]
      ∧ (∀ err, qm s e = .error err → (fetchMessagesInRange qm s e).1 = .error err)
      ∧ (∀ logs, qm s e = .ok logs →
          (fetchMessagesInRange qm s e).1 = .ok (sortByNonce logs))
      ∧ (∀ err, qi s e = .error err → (fetchInsertionsInRange qi s e).1 = .error err)
      ∧ (∀ logs, qi s e = .ok logs → (fetchInsertionsInRange qi s e).1 = .ok logs) := by
  refine ⟨?_, ?_, ?_, ?_, ?_, ?_⟩
  · cases h : qm s e <;> simp [fetchMessagesInRange, h]
  · cases h : qi s e <;> simp [fetchInsertionsInRange, h]
  · intro err h; simp [fetchMessagesInRange, h]
  · intro logs h; simp [fetchMessagesInRange, h]
  · intro err h; simp [fetchInsertionsInRange, h]
  · intro logs h; simp [fetchInsertionsInRange, h]

/-- Witness for `fetchInRange_forwards_range` at the empty range 5..3 with
a succeeding provider. -/
theorem fetchInRange_forwards_range_witness :
    (fetchMessagesInRange queryNoLogs 5 3).2 = [(5, 3)]
      ∧ (fetchMessagesInRange queryNoLogs 5 3).1 = .ok (sortByNonce [])
      ∧ (fetchInsertionsInRange queryNoLogs 5 3).1 = .ok [] :=
  ⟨(fetchInRange_forwards_range queryNoLogs queryNoLogs 5 3).1,
   (fetchInRange_forwards_range queryNoLogs queryNoLogs 5 3).2.2.2.1 [] rfl,
   (fetchInRange_forwards_range queryNoLogs queryNoLogs 5 3).2.2.2.2.2 [] rfl⟩

/-! ### Claim C5 — retry behaviour of the by-transaction fetch -/

theorem callAndRetryIndefinitely_ok {α : Type} (op : Nat → Except ChainError α)
    (a : α) :
    ∀ (n fuel attempt : Nat),
      (∀ k, k < n → ∃ err, op (attempt + k) = .error err) →
      op (attempt + n) = .ok a → n < fuel →
      callAndRetryIndefinitely op fuel attempt = some a := by
  intro n
  induction n with
  | zero =>
    intro fuel attempt _ hok hfuel
    cases fuel with
    | zero => omega
    | succ f =>
      rw [callAndRetryIndefinitely]
      rw [show attempt + 0 = attempt from rfl] at hok
      rw [hok]
  | succ n ih =>
    intro fuel attempt hfail hok hfuel
    cases fuel with
    | zero => omega
    | succ f =>
      obtain ⟨err, herr⟩ := hfail 0 (by omega)
      rw [callAndRetryIndefinitely]
      rw [show attempt + 0 = attempt from rfl] at herr
      rw [herr]
      refine ih f (attempt + 1) ?_ ?_ (by omega)
      · intro k hk
        obtain ⟨e2, he2⟩ := hfail (k + 1) (by omega)
        exact ⟨e2, by rw [show attempt + 1 + k = attempt + (k + 1) by omega]; exact he2⟩
      · rw [show attempt + 1 + n = attempt + (n + 1) by omega]
        exact hok

/-- C5 counterexample: the mailbox indexer's `fetch_logs_by_tx_hash`,
against a transport that fails once and then succeeds, surfaces the
transport error to the caller — it does not retry. -/
theorem fetchMessagesByTxHash_no_retry_counterexample :
    messageTransportFailsOnce 1 = .ok []
      ∧ fetchMessagesByTxHash messageTransportFailsOnce = .error .transport :=
  ⟨rfl, rfl⟩

/-- C5 amended: only the merkle-tree-insertion indexer's
`fetch_logs_by_tx_hash` retries indefinitely — a transport failing on its
first `n` attempts and succeeding on attempt `n` never surfaces an error,
the decoded events are returned; the mailbox message indexer's
`fetch_logs_by_tx_hash` issues a single attempt and propagates its first
transport failure to the caller. -/
theorem fetchByTxHash_retry_amended
    (transport : Nat → Except ChainError (List (MerkleTreeInsertion × LogMeta)))
    (n : Nat) (logs : List (MerkleTreeInsertion × LogMeta))
    (hfail : ∀ k, k < n → ∃ err, transport k = .error err)
    (hok : transport n = .ok logs) :
    (∀ fuel, n < fuel → fetchInsertionsByTxHash transport fuel = some logs)
      ∧ (∀ (tm : Nat → Except ChainError (List (HyperlaneMessage × LogMeta))) err,
          tm 0 = .error err → fetchMessagesByTxHash tm = .error err) := by
  constructor
  · intro fuel hfuel
    unfold fetchInsertionsByTxHash
    refine callAndRetryIndefinitely_ok transport logs n fuel 0 ?_ (by simpa using hok) hfuel
    intro k hk
    simpa using hfail k hk
  · intro tm err h
    unfold fetchMessagesByTxHash
    rw [h]

/-- Witness for `fetchByTxHash_retry_amended` at the spec's scenario: a
transport failing twice then succeeding; with three attempts unrolled the
merkle fetch returns the decoded insertion with no error, and a transport
failing at its single attempt makes the mailbox fetch surface that
error. -/
theorem fetchByTxHash_retry_amended_witness :
    fetchInsertionsByTxHash insertionTransportFailsTwice 3
        = some [(⟨7, 99⟩, ⟨12, 0, 5⟩)]
      ∧ fetchMessagesByTxHash messageTransportFailsOnce = .error .transport :=
  ⟨(fetchByTxHash_retry_amended insertionTransportFailsTwice 2 [(⟨7, 99⟩, ⟨12, 0, 5⟩)]
      (fun k hk => ⟨.transport, by unfold insertionTransportFailsTwice; rw [if_pos hk]⟩)
      rfl).1 3 (by decide),
   (fetchByTxHash_retry_amended insertionTransportFailsTwice 2 [(⟨7, 99⟩, ⟨12, 0, 5⟩)]
      (fun k hk => ⟨.transport, by unfold insertionTransportFailsTwice; rw [if_pos hk]⟩)
      rfl).2 messageTransportFailsOnce .transport rfl⟩

/-! ### Claim C6 — dispatch events sorted by nonce -/

/-- C6: whatever order the transport returns dispatch logs in, a
successful range fetch returns a permutation of them that is sorted
non-decreasing in the message nonce. -/
theorem fetchMessagesInRange_sorted
    (query : Nat → Nat → Except ChainError (List (HyperlaneMessage × LogMeta)))
    (s e : Nat) (logs : List (HyperlaneMessage × LogMeta))
    (h : query s e = .ok logs) :
    ∃ events, (fetchMessagesInRange query s e).1 = .ok events
      ∧ events.Sorted nonceLe ∧ events.Perm logs :=
  ⟨sortByNonce logs, by simp [fetchMessagesInRange, h],
   List.sorted_insertionSort nonceLe logs,
   List.perm_insertionSort nonceLe logs⟩

/-- Witness for `fetchMessagesInRange_sorted`: a provider returning two
dispatch events with nonces 2, 1 in that order; the fetch returns them
re-sorted to nonce order 1, 2. -/
theorem fetchMessagesInRange_sorted_witness :
    (∃ events, (fetchMessagesInRange queryTwoMessages 8 8).1 = .ok events
      ∧ events.Sorted nonceLe
      ∧ events.Perm [(⟨2, []⟩, ⟨8, 1, 40⟩), (⟨1, []⟩, ⟨8, 0, 41⟩)])
      ∧ (fetchMessagesInRange queryTwoMessages 8 8).1
        = .ok [(⟨1, []⟩, ⟨8, 0, 41⟩), (⟨2, []⟩, ⟨8, 1, 40⟩)] :=
  ⟨fetchMessagesInRange_sorted queryTwoMessages 8 8
      [(⟨2, []⟩, ⟨8, 1, 40⟩), (⟨1, []⟩, ⟨8, 0, 41⟩)] rfl,
   rfl⟩

/-! ### Claim C7 — the sequence counter is pinned to the reported tip -/

/-- C7: `latest_sequence_count_and_tip` reads the tip from the Finality
Oracle and then reads the intrinsic counter pinned at exactly that tip:
on success the dispatch (resp. tree-insertion) indexer returns
`(Some(count), tip)` where `count` is the outcome of the `nonce()` (resp.
`count()`) read pinned at the returned tip, and its read trace is exactly
an oracle read followed by one counter read at that tip; the delivery
indexer returns `(None, tip)` and issues no counter read at all. -/
theorem latestSequenceCountAndTip_pins_tip (env : IndexerEnv) (cnt : Option Nat)
    (tip : Nat) :
    ((latestSequenceCountAndTipMessages env).1 = .ok (cnt, tip) →
      env.finalizedResult = .ok tip
        ∧ (∃ s, cnt = some s ∧ env.nonceResult tip = .ok s)
        ∧ (latestSequenceCountAndTipMessages env).2 = [.oracle, .nonceAt tip])
    ∧ ((latestSequenceCountAndTipDeliveries env).1 = .ok (cnt, tip) →
      cnt = none ∧ env.finalizedResult = .ok tip
        ∧ (latestSequenceCountAndTipDeliveries env).2 = [.oracle]
        ∧ ∀ h, ReadEvent.nonceAt h ∉ (latestSequenceCountAndTipDeliveries env).2
            ∧ ReadEvent.countAt h ∉ (latestSequenceCountAndTipDeliveries env).2)
    ∧ ((latestSequenceCountAndTipInsertions env).1 = .ok (cnt, tip) →
      env.finalizedResult = .ok tip
        ∧ (∃ s, cnt = some s ∧ env.countResult tip = .ok s)
        ∧ (latestSequenceCountAndTipInsertions env).2 = [.oracle, .countAt tip]) := by
  refine ⟨?_, ?_, ?_⟩
  · intro h
    unfold latestSequenceCountAndTipMessages at h
    cases hf : env.finalizedResult with
    | error e => simp [hf] at h
    | ok tp =>
      simp only [hf] at h
      cases hn : env.nonceResult tp with
      | error e => simp [hn] at h
      | ok s =>
        simp only [hn, Except.ok.injEq, Prod.mk.injEq] at h
        obtain ⟨h1, h2⟩ := h
        subst h2
        exact ⟨rfl, ⟨s, h1.symm, hn⟩,
          by simp [latestSequenceCountAndTipMessages, hf, hn]⟩
  · intro h
    unfold latestSequenceCountAndTipDeliveries at h
    cases hf : env.finalizedResult with
    | error e => simp [hf] at h
    | ok tp =>
      simp only [hf, Except.ok.injEq, Prod.mk.injEq] at h
      obtain ⟨h1, h2⟩ := h
      subst h2
      refine ⟨h1.symm, rfl, ?_, ?_⟩
      · simp [latestSequenceCountAndTipDeliveries, hf]
      · intro hgt
        constructor <;> simp [latestSequenceCountAndTipDeliveries, hf]
  · intro h
    unfold latestSequenceCountAndTipInsertions at h
    cases hf : env.finalizedResult with
    | error e => simp [hf] at h
    | ok tp =>
      simp only [hf] at h
      cases hc : env.countResult tp with
      | error e => simp [hc] at h
      | ok s =>
        simp only [hc, Except.ok.injEq, Prod.mk.injEq] at h
        obtain ⟨h1, h2⟩ := h
        subst h2
        exact ⟨rfl, ⟨s, h1.symm, hc⟩,
          by simp [latestSequenceCountAndTipInsertions, hf, hc]⟩

/-- Witness for `latestSequenceCountAndTip_pins_tip`: with the oracle at
tip 42 and the nonce read returning `h + 1` at height `h`, the dispatch
indexer returns `(Some 43, 42)` with the counter read pinned at 42, and
the delivery indexer returns `(None, 42)` with no counter read. -/
theorem latestSequenceCountAndTip_pins_tip_witness :
    (latestSequenceCountAndTipMessages indexerEnvExample).1 = .ok (some 43, 42)
      ∧ indexerEnvExample.finalizedResult = .ok 42
      ∧ (∃ s, (some 43 : Option Nat) = some s
          ∧ indexerEnvExample.nonceResult 42 = .ok s)
      ∧ (latestSequenceCountAndTipMessages indexerEnvExample).2
        = [.oracle, .nonceAt 42]
      ∧ (latestSequenceCountAndTipDeliveries indexerEnvExample).1 = .ok (none, 42)
      ∧ (latestSequenceCountAndTipDeliveries indexerEnvExample).2 = [.oracle] :=
  ⟨rfl,
   ((latestSequenceCountAndTip_pins_tip indexerEnvExample (some 43) 42).1 rfl).1,
   ((latestSequenceCountAndTip_pins_tip indexerEnvExample (some 43) 42).1 rfl).2.1,
   ((latestSequenceCountAndTip_pins_tip indexerEnvExample (some 43) 42).1 rfl).2.2,
   rfl,
   ((latestSequenceCountAndTip_pins_tip indexerEnvExample none 42).2.1 rfl).2.2.1⟩

/-! ### Claim C8 — the secondary gas limit and the rollup flag -/

/-- C8: a successful cost estimate reports a present secondary (L2) gas
limit exactly when the chain was flagged as Arbitrum Nitro at
construction time; on a non-flagged chain the auxiliary node-interface
call is never issued (on any path, error paths included). -/
theorem processEstimateCosts_l2_iff_rollup (isNitro : Bool) (env : EstimateEnv)
    (est : TxCostEstimate) :
    ((processEstimateCosts (EthereumMailboxModel.new isNitro) env).1 = .ok est →
      est.l2GasLimit.isSome = isNitro)
    ∧ (isNitro = false →
      (processEstimateCosts (EthereumMailboxModel.new isNitro) env).2 = false) := by
  constructor
  · intro h
    unfold processEstimateCosts at h
    cases isNitro with
    | false =>
      cases hf : env.fillResult with
      | error e => rw [hf] at h; exact Except.noConfusion h
      | ok g =>
        rw [hf] at h
        cases g with
        | none => exact Except.noConfusion h
        | some gl =>
          cases hp : env.gasPriceResult with
          | error e => rw [hp] at h; exact Except.noConfusion h
          | ok price =>
            rw [hp] at h
            injection h with h2
            subst h2
            rfl
    | true =>
      cases hf : env.fillResult with
      | error e => rw [hf] at h; exact Except.noConfusion h
      | ok g =>
        rw [hf] at h
        cases g with
        | none => exact Except.noConfusion h
        | some gl =>
          cases ha : env.auxResult with
          | error e => rw [ha] at h; exact Except.noConfusion h
          | ok aux =>
            rw [ha] at h
            cases hp : env.gasPriceResult with
            | error e => rw [hp] at h; exact Except.noConfusion h
            | ok price =>
              rw [hp] at h
              injection h with h2
              subst h2
              rfl
  · intro hn
    subst hn
    unfold processEstimateCosts
    cases hf : env.fillResult with
    | error e => rfl
    | ok g =>
      cases g with
      | none => rfl
      | some gl =>
        cases hp : env.gasPriceResult with
        | error e => rfl
        | ok price => rfl

/-- Witness for `processEstimateCosts_l2_iff_rollup`: the same estimation
environment against a rollup-flagged and a non-flagged construction — the
secondary limit is present exactly in the flagged case, and the
non-flagged case never issues the auxiliary call. -/
theorem processEstimateCosts_l2_iff_rollup_witness :
    (processEstimateCosts (EthereumMailboxModel.new true) estimateEnvExample).1
        = .ok ⟨1000000, 15, some 200000⟩
      ∧ (⟨1000000, 15, some 200000⟩ : TxCostEstimate).l2GasLimit.isSome = true
      ∧ (processEstimateCosts (EthereumMailboxModel.new false) estimateEnvExample).1
        = .ok ⟨1000000, 15, none⟩
      ∧ (⟨1000000, 15, none⟩ : TxCostEstimate).l2GasLimit.isSome = false
      ∧ (processEstimateCosts (EthereumMailboxModel.new false) estimateEnvExample).2
        = false :=
  ⟨rfl,
   (processEstimateCosts_l2_iff_rollup true estimateEnvExample
      ⟨1000000, 15, some 200000⟩).1 rfl,
   rfl,
   (processEstimateCosts_l2_iff_rollup false estimateEnvExample
      ⟨1000000, 15, none⟩).1 rfl,
   (processEstimateCosts_l2_iff_rollup false estimateEnvExample
      ⟨1000000, 15, none⟩).2 rfl⟩

/-! ### Claim C9 — verbatim tree reconstruction -/

/-- C9: converting a ledger-reported tree with its 32 branch slots gives
an in-memory incremental merkle structure whose branch equals the
reported branch slot for slot and whose count equals the reported count —
with no hash-consistency hypothesis anywhere: any reported values are
accepted verbatim. -/
theorem tree_toIncrementalMerkle_verbatim (t : Tree) (h : t.branch.length = 32) :
    ∃ m, t.toIncrementalMerkle = some m
      ∧ m.branch = t.branch
      ∧ m.branch.length = 32
      ∧ m.count = t.count
      ∧ ∀ i : Nat, m.branch[i]? = t.branch[i]? := by
  refine ⟨⟨t.branch, t.count⟩, ?_, rfl, h, rfl, fun i => rfl⟩
  simp [Tree.toIncrementalMerkle, h]

/-- Witness for `tree_toIncrementalMerkle_verbatim` at a tree with branch
slots `0, 1, …, 31` and 7 leaves. -/
theorem tree_toIncrementalMerkle_verbatim_witness :
    treeExample.branch.length = 32
      ∧ ∃ m, treeExample.toIncrementalMerkle = some m
          ∧ m.branch = treeExample.branch
          ∧ m.branch.length = 32
          ∧ m.count = treeExample.count
          ∧ ∀ i : Nat, m.branch[i]? = treeExample.branch[i]? :=
  ⟨by decide, tree_toIncrementalMerkle_verbatim treeExample (by decide)⟩

/-! ### Claim C10 — `Mailbox::count` ignores its lag argument -/

/-- C10: `Mailbox::count` binds its lag argument as `_maybe_lag` and never
uses it: for any two lag arguments (including `None`) the very same
nonce read pinned at the finalized block is performed, so the results
against the same ledger state are identical. -/
theorem mailboxCount_ignores_lag (maybeLag maybeLagB : Option Nat) (env : CountEnv) :
    mailboxCount maybeLag env = mailboxCount maybeLagB env
      ∧ mailboxCount maybeLag env = env.nonceAtTag .finalized :=
  ⟨rfl, rfl⟩

end Hyperlane
